import Mathlib

/-!
# igcApi: track repository, field queries, uptime formatting

A shallow embedding of `api_igc.go`.  The global slice `igcFilesDB` is passed
explicitly as a list, handlers return the new store together with a typed view
of the HTTP response they write.  The library pieces the file calls
(`igc.ParseLocation`, `Point.Distance`, `rand.Intn`, `time.Time.String`,
`strconv.FormatFloat`, the Unicode case table) are parameters of the definitions
that use them.  `int64` arithmetic is integer arithmetic with explicit
wrap-around, and `float64` accumulation is generic in the number type, with
binary64 addition on bit patterns as one instance.
-/

set_option exponentiation.threshold 4096

namespace IgcApi

/-! ## Data structures -/

/-- The part of the library type `igc.Track` that the service reads: the header
fields `Pilot`, `GliderType`, `GliderID`, `Date` and the recorded `Points`.
`P` is the library's point type and `T` its date type. -/
structure IgcTrack (P T : Type) where
  Pilot : String
  GliderType : String
  GliderID : String
  Date : T
  Points : List P
  deriving DecidableEq, Repr

/-- The record `type Track struct` with its fields `Id`, `IgcTrack`, `Url`. -/
structure Track (P T : Type) where
  Id : String
  IgcTrack : IgcApi.IgcTrack P T
  Url : String
  deriving DecidableEq, Repr

/-- The record `type TrackInfo struct`, with `F` standing for `float64`. -/
structure TrackInfo (F : Type) where
  HDate : String
  Pilot : String
  Glider : String
  GliderId : String
  TrackLength : F
  deriving DecidableEq, Repr

/-- What the `POST` branch of `getApiIgc` writes.
* `errorMade e`: status 200, the line `Error made:  e` (decode or parse failure);
* `conflict id`: status 409 followed by the line naming the stored track's id;
* `created id`: status 200, the JSON encoding of the new id. -/
inductive PostResponse where
  | errorMade (err : String)
  | conflict (id : String)
  | created (id : String)
  deriving DecidableEq, Repr

/-- HTTP status code of a `PostResponse`. -/
def PostResponse.status : PostResponse → Nat
  | .errorMade _ => 200
  | .conflict _ => 409
  | .created _ => 200

/-! ## Ingestion (`getApiIgc`, `POST`) -/

/-- The conversion `strconv.Itoa` on the non-negative result of `rand.Intn`. -/
def Itoa (n : Nat) : String := Nat.repr n

/-- The `POST` branch of `getApiIgc`.  `decoded` is the outcome of decoding the
request body into `apiURL`, `ParseLocation` is `igc.ParseLocation`, and
`uniqueId` is the value drawn by `rand.Intn(1000)`. -/
def getApiIgcPost {P T : Type} (ParseLocation : String → Except String (IgcTrack P T))
    (igcFilesDB : List (Track P T)) (decoded : Except String String) (uniqueId : Fin 1000) :
    List (Track P T) × PostResponse :=
  match decoded with
  | .error e => (igcFilesDB, .errorMade e)
  | .ok apiURL =>
    match ParseLocation apiURL with
    | .error e => (igcFilesDB, .errorMade e)
    | .ok track =>
      let igcFile : Track P T := { Id := Itoa uniqueId.val, IgcTrack := track, Url := apiURL }
      match igcFilesDB.find? (fun t => t.Url == igcFile.Url) with
      | some dup => (igcFilesDB, .conflict dup.Id)
      | none => (igcFilesDB ++ [igcFile], .created igcFile.Id)

/-- The `GET` branch of `getApiIgc`: the loop that appends every stored id to
`igcTrackIds`, starting from the empty slice. -/
def igcTrackIds {P T : Type} (igcFilesDB : List (Track P T)) : List String :=
  igcFilesDB.foldl (fun ids t => ids ++ [t.Id]) []

/-- Stores reachable from the empty store by a sequence of `POST` requests, each
with its own body, parser outcome and identifier draw. -/
inductive Reachable {P T : Type} : List (Track P T) → Prop where
  | empty : Reachable []
  | step (ParseLocation : String → Except String (IgcTrack P T)) (db : List (Track P T))
      (decoded : Except String String) (uniqueId : Fin 1000) :
      Reachable db → Reachable (getApiIgcPost ParseLocation db decoded uniqueId).1

/-! ## Lookup by id and field queries (`getApiIgcId`, `getApiIgcField`) -/

/-- The regular-expression class `[0-9]`. -/
def isIdRune (c : Char) : Bool := decide ('0' ≤ c ∧ c ≤ '9')

/-- The regular-expression class `[a-zA-Z_]`. -/
def isFieldRune (c : Char) : Bool :=
  decide (('a' ≤ c ∧ c ≤ 'z') ∨ ('A' ≤ c ∧ c ≤ 'Z') ∨ c = '_')

/-- Search for the pattern `[cls]+` from each start position of the input in
turn: at a given start the pattern matches as soon as the first rune is in the
class, otherwise the search moves one rune to the right. -/
def matchClassPlus (cls : Char → Bool) : List Char → Bool
  | [] => false
  | c :: rest => cls c || matchClassPlus cls rest

/-- The method `regexp.MatchString` for a compiled pattern `[cls]+`; the pattern carries no
`^` or `$`, so a match anywhere in `s` counts. -/
def MatchString (cls : Char → Bool) (s : String) : Bool := matchClassPlus cls s.toList

/-- The function `unicode.ToLower` on one rune: the ASCII letters are handled directly, every
other rune goes through the Unicode case table `tbl`. -/
def lowerRune (tbl : Char → Char) (c : Char) : Char :=
  if c.val < 128 then Char.toLower c else tbl c

/-- The function `strings.ToLower`: the rune-wise image of a (valid UTF-8) string. -/
def ToLower (tbl : Char → Char) (s : String) : String := String.mk (s.toList.map (lowerRune tbl))

/-- One rune `c` of a requested name matches the rune `d` of a field name up to
letter case: an ASCII capital `A` to `Z` (code points 65 to 90) matches the
letter 32 code points above it, any other ASCII rune matches only itself, and a
rune outside ASCII matches what the Unicode case table sends it to. -/
def foldsTo (tbl : Char → Char) (c d : Char) : Prop :=
  if c.toNat < 128 then
    if 65 ≤ c.toNat ∧ c.toNat ≤ 90 then d.toNat = c.toNat + 32 else c = d
  else tbl c = d

/-- The requested name `f` spells `name` up to letter case, rune by rune. -/
def sameIgnoringCase (tbl : Char → Char) (f name : String) : Prop :=
  List.Forall₂ (foldsTo tbl) f.toList name.toList

/-- The loop of `trackLength`, started at index `i` with running total
`totalDistance`.  The loop test compares Go `int`s, so an empty slice gives the
bound `-1`.  `none` is an index out of range (or exhausted fuel). -/
def trackLengthLoop {P F : Type} [Add F] (Distance : P → P → F) (Points : List P) :
    Nat → Nat → F → Option F
  | 0, _, _ => none
  | fuel + 1, i, totalDistance =>
    if (i : Int) < (Points.length : Int) - 1 then
      match Points[i]?, Points[i + 1]? with
      | some a, some b =>
        trackLengthLoop Distance Points fuel (i + 1) (totalDistance + Distance a b)
      | _, _ => none
    else some totalDistance

/-- The function `func trackLength(track igc.Track) float64`, with `F` for `float64` and
`Distance` for the library method `Point.Distance`. -/
def trackLength {P T F : Type} [Zero F] [Add F] (Distance : P → P → F) (track : IgcTrack P T) :
    Option F :=
  trackLengthLoop Distance track.Points (track.Points.length + 1) 0 0

/-- What `getApiIgcId` writes: an `http.Error` with its status and message, the
JSON encoding of a `TrackInfo`, or a run-time panic. -/
inductive IdResponse (F : Type) where
  | httpError (status : Nat) (msg : String)
  | trackInfo (info : TrackInfo F)
  | panicked
  deriving DecidableEq, Repr

/-- What `getApiIgcField` writes: an `http.Error`, the JSON encoding of the
requested field, or a run-time panic. -/
inductive FieldResponse where
  | httpError (status : Nat) (msg : String)
  | fieldData (value : String)
  | panicked
  deriving DecidableEq, Repr

/-- Handler `getApiIgcId` for the request method `method` and path variable `id`. -/
def getApiIgcId {P T F : Type} [Zero F] [Add F] (Distance : P → P → F)
    (DateString : T → String) (igcFilesDB : List (Track P T)) (method id : String) :
    IdResponse F :=
  if method != "GET" then .httpError 501 "501 - Method not implemented"
  else if !MatchString isIdRune id then
    .httpError 400 "400 - Bad Request, you entered an invalid ID in URL."
  else
    match igcFilesDB.find? (fun t => t.Id == id) with
    | some t =>
      match trackLength Distance t.IgcTrack with
      | some len =>
        .trackInfo { HDate := DateString t.IgcTrack.Date, Pilot := t.IgcTrack.Pilot,
                     Glider := t.IgcTrack.GliderType, GliderId := t.IgcTrack.GliderID,
                     TrackLength := len }
      | none => .panicked
    | none => .httpError 404 "404 - The trackInfo with that id doesn't exists in IGC Files"

/-- The map literal `fields` built for a stored track, `len` being the value of
`trackLength` and `FloatToString` the four-decimal rendering. -/
def fields {P T F : Type} (DateString : T → String) (FloatToString : F → String)
    (track : IgcTrack P T) (len : F) : List (String × String) :=
  [("pilot", track.Pilot), ("glider", track.GliderType), ("glider_id", track.GliderID),
   ("track_length", FloatToString len), ("h_date", DateString track.Date)]

/-- Lower-case the requested field and look it up in `fields`. -/
def resolveField {P T F : Type} (tbl : Char → Char) (DateString : T → String)
    (FloatToString : F → String) (track : IgcTrack P T) (len : F) (field : String) :
    Option String :=
  (fields DateString FloatToString track len).lookup (ToLower tbl field)

/-- Handler `getApiIgcField` for the method and the path variables `id`, `field`. -/
def getApiIgcField {P T F : Type} [Zero F] [Add F] (tbl : Char → Char) (Distance : P → P → F)
    (DateString : T → String) (FloatToString : F → String) (igcFilesDB : List (Track P T))
    (method id field : String) : FieldResponse :=
  if method != "GET" then .httpError 501 "501 - Method not implemented"
  else if !MatchString isIdRune id then
    .httpError 400 "400 - Bad Request, you entered an invalid ID in URL."
  else if !MatchString isFieldRune field then
    .httpError 400 "400 - Bad Request, you entered an invalid Field in URL."
  else
    match igcFilesDB.find? (fun t => t.Id == id) with
    | some t =>
      match trackLength Distance t.IgcTrack with
      | some len =>
        match resolveField tbl DateString FloatToString t.IgcTrack len field with
        | some fieldData => .fieldData fieldData
        | none =>
          .httpError 400 "400 - Bad Request, the field you entered is not on our database!"
      | none => .panicked
    | none => .httpError 404 "404 - The track with that id doesn't exists in IGC Files"

/-- The distances between consecutive points, `Distance p[i] p[i+1]` for
`i = 0, …, n-2`, in order. -/
def consecutiveDistances {P F : Type} (Distance : P → P → F) (p : List P) : List F :=
  List.zipWith Distance p p.tail

/-- The total described in the specification: the consecutive distances added
one after the other onto `0`. -/
def totalDistanceSpec {P F : Type} [Zero F] [Add F] (Distance : P → P → F) (p : List P) : F :=
  (consecutiveDistances Distance p).foldl (fun acc d => acc + d) 0

/-! ## Uptime formatting (`FormatTimeSince`) -/

/-- Two's-complement wrap-around of a 64-bit signed result. -/
def wrap64 (x : Int) : Int := (x + 2 ^ 63) % 2 ^ 64 - 2 ^ 63

/-- The constants `time.Millisecond`, `time.Second`, `time.Minute`, `time.Hour` in
nanoseconds, and the local constants `Decisecond`, `Day`. -/
def Millisecond : Int := 1000000
def Second : Int := 1000 * Millisecond
def Minute : Int := 60 * Second
def Hour : Int := 60 * Minute
def Decisecond : Int := 100 * Millisecond
def Day : Int := 24 * Hour

/-- The six numbers handed to `fmt.Sprintf` by `FormatTimeSince`. -/
structure Elapsed where
  years : Int
  days : Int
  hours : Int
  minutes : Int
  seconds : Int
  f : Int
  deriving DecidableEq, Repr

/-- The arithmetic of `FormatTimeSince` on the `int64` duration `elapsed`
returned by `time.Since(t)`; `/` and `%` truncate towards zero as in Go. -/
def elapsedFields (elapsed : Int) : Elapsed :=
  let sign : Int := if elapsed < 0 then -1 else 1
  let timeSince := if elapsed < 0 then wrap64 (-elapsed) else elapsed
  let timeSince := wrap64 (timeSince + Decisecond / 2)
  let days := wrap64 (sign * (timeSince.tdiv Day))
  let timeSince := timeSince.tmod Day
  let hours := timeSince.tdiv Hour
  let timeSince := timeSince.tmod Hour
  let minutes := timeSince.tdiv Minute
  let timeSince := timeSince.tmod Minute
  let seconds := timeSince.tdiv Second
  let timeSince := timeSince.tmod Second
  let f := timeSince.tdiv Decisecond
  let years := days.tdiv 365
  { years := years, days := days, hours := hours, minutes := minutes, seconds := seconds, f := f }

/-- The verb `%d` of `fmt.Sprintf` on an integer. -/
def fmtD (i : Int) : String := toString i

/-- The call to `fmt.Sprintf` with the format `P%dY%dD%dH%dM%d.%dS` and the arguments
`years, days, hours, minutes, seconds, f`. -/
def renderElapsed (e : Elapsed) : String :=
  "P" ++ fmtD e.years ++ "Y" ++ fmtD e.days ++ "D" ++ fmtD e.hours ++ "H" ++
    fmtD e.minutes ++ "M" ++ fmtD e.seconds ++ "." ++ fmtD e.f ++ "S"

/-- The function `func FormatTimeSince(t time.Time) string` as a function of the elapsed
duration `time.Since(t)` in nanoseconds. -/
def FormatTimeSince (elapsed : Int) : String := renderElapsed (elapsedFields elapsed)

/-! ## Binary64 accumulation -/

/-- A `float64` given by its bit pattern; only patterns with a clear sign bit
(non-negative numbers, `+Inf`) are used. -/
structure F64 where
  bits : Nat
  deriving DecidableEq, Repr

/-- Biased exponent field. -/
def F64.expField (x : F64) : Nat := x.bits / 2 ^ 52

/-- Effective exponent: subnormals share the exponent of the smallest normals. -/
def F64.scale (x : F64) : Nat := max x.expField 1

/-- Significand with the implicit leading bit of a normal number made explicit. -/
def F64.significand (x : F64) : Nat :=
  if x.expField = 0 then x.bits % 2 ^ 52 else 2 ^ 52 + x.bits % 2 ^ 52

/-- Bit pattern of `+Inf`. -/
def F64.infBits : Nat := 2047 * 2 ^ 52

/-- Drop the low `k` bits of `s`, rounding to nearest with ties to even. -/
def roundHalfEven (s k : Nat) : Nat :=
  let q := s / 2 ^ k
  let r := s % 2 ^ k
  if 2 * r > 2 ^ k ∨ (2 * r = 2 ^ k ∧ q % 2 = 1) then q + 1 else q

/-- Sum of two finite non-negative doubles `hi`, `lo` with `lo.scale ≤ hi.scale`:
the exact sum in units of the last place of `lo`, rounded to 53 bits. -/
def F64.addOrdered (hi lo : F64) : F64 :=
  let d := hi.scale - lo.scale
  let s := hi.significand * 2 ^ d + lo.significand
  let k := if s < 2 ^ (53 + d) then d else d + 1
  let b := (lo.scale + k - 1) * 2 ^ 52 + roundHalfEven s k
  ⟨if b ≥ F64.infBits then F64.infBits else b⟩

/-- IEEE 754 binary64 addition (round to nearest, ties to even) on operands with
a clear sign bit; a NaN operand is returned as is. -/
def F64.add (a b : F64) : F64 :=
  if a.bits > F64.infBits then a
  else if b.bits > F64.infBits then b
  else if a.bits = F64.infBits ∨ b.bits = F64.infBits then ⟨F64.infBits⟩
  else if b.scale ≤ a.scale then F64.addOrdered a b
  else F64.addOrdered b a

instance : Add F64 := ⟨F64.add⟩
instance : Zero F64 := ⟨⟨0⟩⟩

/-- The doubles nearest to `0.1`, `0.2`, `0.3`. -/
def F64.tenth : F64 := ⟨0x3FB999999999999A⟩
def F64.fifth : F64 := ⟨0x3FC999999999999A⟩
def F64.threeTenths : F64 := ⟨0x3FD3333333333333⟩

/-! ## Example data -/

/-- A parsed track with three points on a line. -/
def exTrack : IgcTrack Nat Nat :=
  { Pilot := "A", GliderType := "B", GliderID := "C", Date := 0, Points := [0, 1, 3] }

/-- A parser that succeeds on every location. -/
def exParse : String → Except String (IgcTrack Nat Nat) := fun _ => .ok exTrack

/-- A store holding one track with id `7`. -/
def exStore : List (Track Nat Nat) := [{ Id := "7", IgcTrack := exTrack, Url := "a" }]

/-- Distance between two points on a line, as a whole number. -/
def exDistance (a b : Nat) : Nat := if a ≤ b then b - a else a - b

/-- A date rendering for the example tracks. -/
def exDateString : Nat → String := fun _ => "2016-02-19 00:00:00 +0000 UTC"

/-- A number rendering for the example tracks. -/
def exFloatToString : Nat → String := fun n => Nat.repr n ++ ".0000"

/-- A symmetric distance on four points of a line with doubles as values: the
three legs measure `0.1`, `0.2` and `0.3`. -/
def legDistance (a b : Nat) : F64 :=
  let lo := min a b
  let hi := max a b
  if lo = 0 ∧ hi = 1 then F64.tenth
  else if lo = 1 ∧ hi = 2 then F64.fifth
  else if lo = 2 ∧ hi = 3 then F64.threeTenths
  else 0

/-- A track through the four points in order. -/
def legTrack : IgcTrack Nat Nat :=
  { Pilot := "A", GliderType := "B", GliderID := "C", Date := 0, Points := [0, 1, 2, 3] }

/-- The same track flown backwards. -/
def legTrackReversed : IgcTrack Nat Nat := { legTrack with Points := legTrack.Points.reverse }

/-! ## Helper lemmas -/

theorem find_url_none_iff {P T : Type} (db : List (Track P T)) (u : String) :
    db.find? (fun t => t.Url == u) = none ↔ u ∉ db.map Track.Url := by
  induction db with
  | nil => simp
  | cons a l ih =>
    simp only [List.find?_cons, List.map_cons, List.mem_cons, not_or]
    by_cases h : a.Url = u
    · simp [h]
    · have h' : (a.Url == u) = false := by simpa using h
      rw [h', ih]
      constructor
      · intro hm; exact ⟨fun e => h e.symm, hm⟩
      · intro hm; exact hm.2

theorem find_url_append_new {P T : Type} (db : List (Track P T)) (x : Track P T)
    (h : db.find? (fun t => t.Url == x.Url) = none) :
    (db ++ [x]).find? (fun t => t.Url == x.Url) = some x := by
  rw [List.find?_append, h]
  simp

theorem igcTrackIds_foldl {P T : Type} (db : List (Track P T)) (acc : List String) :
    db.foldl (fun ids t => ids ++ [t.Id]) acc = acc ++ db.map Track.Id := by
  induction db generalizing acc with
  | nil => simp
  | cons a l ih => simp [List.foldl_cons, ih]

theorem igcTrackIds_eq_map {P T : Type} (db : List (Track P T)) :
    igcTrackIds db = db.map Track.Id := by
  simp [igcTrackIds, igcTrackIds_foldl]

/-- A successful `POST` appended exactly one record built from the request. -/
theorem post_created_inv {P T : Type} (parse : String → Except String (IgcTrack P T))
    (db db' : List (Track P T)) (u : String) (r : Fin 1000) (X : String)
    (h : getApiIgcPost parse db (.ok u) r = (db', .created X)) :
    ∃ t, parse u = .ok t ∧ db.find? (fun s => s.Url == u) = none ∧
      X = Itoa r.val ∧ db' = db ++ [{ Id := X, IgcTrack := t, Url := u }] := by
  unfold getApiIgcPost at h
  simp only at h
  cases hp : parse u with
  | error e => rw [hp] at h; simp at h
  | ok t =>
    rw [hp] at h
    simp only at h
    cases hf : db.find? (fun s => s.Url == u) with
    | some d => rw [hf] at h; simp at h
    | none =>
      rw [hf] at h
      simp only [Prod.mk.injEq, PostResponse.created.injEq] at h
      exact ⟨t, rfl, rfl, h.2.symm, by rw [← h.1, h.2]⟩

/-- The store only changes by appending a record whose URL was not stored. -/
theorem post_store_cases {P T : Type} (parse : String → Except String (IgcTrack P T))
    (db : List (Track P T)) (decoded : Except String String) (r : Fin 1000) :
    (getApiIgcPost parse db decoded r).1 = db ∨
      ∃ x : Track P T, x.Url ∉ db.map Track.Url ∧
        (getApiIgcPost parse db decoded r).1 = db ++ [x] := by
  unfold getApiIgcPost
  cases decoded with
  | error e => exact Or.inl rfl
  | ok u =>
    simp only
    cases hp : parse u with
    | error e => exact Or.inl rfl
    | ok t =>
      simp only
      cases hf : db.find? (fun s => s.Url == u) with
      | some d => exact Or.inl rfl
      | none =>
        refine Or.inr ⟨{ Id := Itoa r.val, IgcTrack := t, Url := u }, ?_, rfl⟩
        exact (find_url_none_iff db u).1 hf

theorem post_preserves_url_nodup {P T : Type} (parse : String → Except String (IgcTrack P T))
    (db : List (Track P T)) (decoded : Except String String) (r : Fin 1000)
    (h : (db.map Track.Url).Nodup) :
    ((getApiIgcPost parse db decoded r).1.map Track.Url).Nodup := by
  rcases post_store_cases parse db decoded r with h1 | ⟨x, hx, h1⟩
  · rw [h1]; exact h
  · rw [h1, List.map_append, List.map_cons, List.map_nil]
    refine List.Nodup.append h (List.nodup_singleton _) ?_
    intro a ha hb
    rw [List.mem_singleton] at hb
    exact hx (hb ▸ ha)

/-! ## Track repository -/

/-- C1: if ingesting `u` succeeds with id `X`, then ingesting `u` again on the
resulting store, whatever the second parse returns as long as it succeeds and
whatever the second identifier draw, answers the duplicate conflict carrying
exactly `X` and leaves the stored collection as it was. -/
theorem ingest_twice_reports_duplicate {P T : Type}
    (parse₁ parse₂ : String → Except String (IgcTrack P T)) (db db₁ : List (Track P T))
    (u : String) (r₁ r₂ : Fin 1000) (X : String)
    (hparse : ∃ t, parse₂ u = .ok t)
    (hfirst : getApiIgcPost parse₁ db (.ok u) r₁ = (db₁, .created X)) :
    getApiIgcPost parse₂ db₁ (.ok u) r₂ = (db₁, .conflict X) := by
  obtain ⟨t, _, hnone, _, hdb⟩ := post_created_inv parse₁ db db₁ u r₁ X hfirst
  obtain ⟨t₂, ht₂⟩ := hparse
  have hfind : db₁.find? (fun s => s.Url == u) = some { Id := X, IgcTrack := t, Url := u } := by
    rw [hdb]
    exact find_url_append_new db { Id := X, IgcTrack := t, Url := u } hnone
  unfold getApiIgcPost
  simp only [ht₂, hfind]

theorem ingest_twice_reports_duplicate_witness :
    getApiIgcPost exParse (exStore ++ [{ Id := "5", IgcTrack := exTrack, Url := "b" }])
      (.ok "b") 9 =
      (exStore ++ [{ Id := "5", IgcTrack := exTrack, Url := "b" }], .conflict "5") :=
  ingest_twice_reports_duplicate exParse exParse exStore _ "b" 5 9 "5" ⟨exTrack, rfl⟩ (by decide)

/-- C2: evaluation of the ingestion at a store holding id `7` when the draw is
again `7`: the request succeeds and two stored tracks now carry the id `7`. -/
theorem ingest_repeats_drawn_id :
    (getApiIgcPost exParse exStore (.ok "b") 7).2 = .created "7" ∧
      (getApiIgcPost exParse exStore (.ok "b") 7).1.map Track.Id = ["7", "7"] ∧
      (exStore.map Track.Id).Nodup ∧
      ¬ ((getApiIgcPost exParse exStore (.ok "b") 7).1.map Track.Id).Nodup := by
  decide

/-- C3: an ingestion request never creates two stored tracks with the same URL,
whether it ends in success, a duplicate conflict or a parse error, and every
store reachable from the empty one has pairwise distinct URLs. -/
theorem ingest_keeps_urls_distinct {P T : Type} :
    (∀ (parse : String → Except String (IgcTrack P T)) (db : List (Track P T)) (u : String)
        (r : Fin 1000), (db.map Track.Url).Nodup →
        ((getApiIgcPost parse db (.ok u) r).1.map Track.Url).Nodup) ∧
      (∀ db : List (Track P T), Reachable db → (db.map Track.Url).Nodup) := by
  constructor
  · intro parse db u r h
    exact post_preserves_url_nodup parse db (.ok u) r h
  · intro db h
    induction h with
    | empty => exact List.nodup_nil
    | step parse db decoded r _ ih => exact post_preserves_url_nodup parse db decoded r ih

theorem ingest_keeps_urls_distinct_witness :
    ((getApiIgcPost exParse exStore (.ok "b") 7).1.map Track.Url).Nodup ∧
      ((getApiIgcPost exParse (getApiIgcPost exParse [] (.ok "a") 3).1 (.ok "a") 4).1.map
        Track.Url).Nodup :=
  ⟨ingest_keeps_urls_distinct.1 exParse exStore "b" 7 (by decide),
   ingest_keeps_urls_distinct.2 _ (Reachable.step exParse _ (.ok "a") 4
     (Reachable.step exParse [] (.ok "a") 3 Reachable.empty))⟩

/-- C10: the id listing holds the id of every stored track in insertion order,
and a successful ingestion of `u` returning `X` only appends one record with id
`X` and URL `u`, so the listing afterwards is the listing before followed by
`X`; from the empty store the listing is `[X]`. -/
theorem list_ids_and_append_only {P T : Type} :
    (∀ db : List (Track P T), igcTrackIds db = db.map Track.Id) ∧
      (∀ (db : List (Track P T)) (i : Nat),
        (igcTrackIds db)[i]? = (db[i]?).map Track.Id) ∧
      (∀ (parse : String → Except String (IgcTrack P T)) (db db' : List (Track P T))
          (u : String) (r : Fin 1000) (X : String),
        getApiIgcPost parse db (.ok u) r = (db', .created X) →
          (∃ t, parse u = .ok t ∧ db' = db ++ [{ Id := X, IgcTrack := t, Url := u }]) ∧
            db'.length = db.length + 1 ∧
            (∀ i, i < db.length → db'[i]? = db[i]?) ∧
            igcTrackIds db' = igcTrackIds db ++ [X]) ∧
      (∀ (parse : String → Except String (IgcTrack P T)) (db' : List (Track P T))
          (u : String) (r : Fin 1000) (X : String),
        getApiIgcPost parse [] (.ok u) r = (db', .created X) → igcTrackIds db' = [X]) := by
  have key : ∀ (parse : String → Except String (IgcTrack P T)) (db db' : List (Track P T))
      (u : String) (r : Fin 1000) (X : String),
      getApiIgcPost parse db (.ok u) r = (db', .created X) →
        (∃ t, parse u = .ok t ∧ db' = db ++ [{ Id := X, IgcTrack := t, Url := u }]) ∧
          db'.length = db.length + 1 ∧
          (∀ i, i < db.length → db'[i]? = db[i]?) ∧
          igcTrackIds db' = igcTrackIds db ++ [X] := by
    intro parse db db' u r X h
    obtain ⟨t, ht, _, _, hdb⟩ := post_created_inv parse db db' u r X h
    refine ⟨⟨t, ht, hdb⟩, ?_, ?_, ?_⟩
    · rw [hdb]; simp
    · intro i hi
      rw [hdb, List.getElem?_append_left hi]
    · rw [igcTrackIds_eq_map, igcTrackIds_eq_map, hdb]; simp
  refine ⟨igcTrackIds_eq_map, ?_, key, ?_⟩
  · intro db i
    rw [igcTrackIds_eq_map, List.getElem?_map]
  · intro parse db' u r X h
    have := (key parse [] db' u r X h).2.2.2
    rw [this, igcTrackIds_eq_map]; rfl

theorem list_ids_and_append_only_witness :
    igcTrackIds (exStore ++ [{ Id := "5", IgcTrack := exTrack, Url := "b" }]) =
      igcTrackIds exStore ++ ["5"] :=
  ((list_ids_and_append_only.2.2.1 exParse exStore _ "b" 5 "5" (by decide))).2.2.2

/-! ## Distance engine -/

theorem trackLengthLoop_eq {P F : Type} [Add F] (Distance : P → P → F) (p : List P) :
    ∀ (fuel i : Nat) (total : F), p.length ≤ fuel + i →
      trackLengthLoop Distance p (fuel + 1) i total =
        some ((List.zipWith Distance (p.drop i) (p.drop (i + 1))).foldl
          (fun acc d => acc + d) total) := by
  intro fuel
  induction fuel with
  | zero =>
    intro i total h
    unfold trackLengthLoop
    have hlt : ¬ (i : Int) < (p.length : Int) - 1 := by omega
    have hi : p.length ≤ i + 1 := by omega
    rw [if_neg hlt, List.drop_eq_nil_of_le hi, List.zipWith_nil_right]
    rfl
  | succ n ih =>
    intro i total h
    unfold trackLengthLoop
    by_cases hlt : (i : Int) < (p.length : Int) - 1
    · have hi : i + 1 < p.length := by omega
      have hi0 : i < p.length := by omega
      rw [if_pos hlt, List.getElem?_eq_getElem hi0, List.getElem?_eq_getElem hi]
      simp only
      rw [ih (i + 1) _ (by omega)]
      have e1 : p.drop i = p[i] :: p.drop (i + 1) := (List.getElem_cons_drop p i hi0).symm
      have e2 : p.drop (i + 1) = p[i + 1] :: p.drop (i + 1 + 1) :=
        (List.getElem_cons_drop p (i + 1) hi).symm
      conv_rhs => rw [e1, e2]
      rw [List.zipWith_cons_cons, List.foldl_cons, ← e2]
    · have hi : p.length ≤ i + 1 := by omega
      rw [if_neg hlt, List.drop_eq_nil_of_le hi, List.zipWith_nil_right]
      rfl

theorem trackLength_eq_spec {P T F : Type} [Zero F] [Add F] (Distance : P → P → F)
    (t : IgcTrack P T) : trackLength Distance t = some (totalDistanceSpec Distance t.Points) := by
  unfold trackLength
  rw [trackLengthLoop_eq Distance t.Points _ 0 0 (by omega)]
  simp [totalDistanceSpec, consecutiveDistances]

theorem consecutiveDistances_getElem? {P F : Type} (Distance : P → P → F) (p : List P)
    (i : Nat) (a b : P) (ha : p[i]? = some a) (hb : p[i + 1]? = some b) :
    (consecutiveDistances Distance p)[i]? = some (Distance a b) := by
  unfold consecutiveDistances
  rw [List.getElem?_zipWith, ha]
  cases p with
  | nil => simp at ha
  | cons x xs =>
    simp only [List.tail_cons]
    rw [List.getElem?_cons_succ] at hb
    rw [hb]

/-- C8: `trackLength` returns, without ever indexing out of range, the distances
between consecutive points `p[i]`, `p[i+1]` for `i = 0, …, n-2` added one after
the other onto `0`; for at most one point the result is `0`. -/
theorem track_length_is_consecutive_sum {P T F : Type} [Zero F] [Add F]
    (Distance : P → P → F) (t : IgcTrack P T) :
    trackLength Distance t = some (totalDistanceSpec Distance t.Points) ∧
      (consecutiveDistances Distance t.Points).length = t.Points.length - 1 ∧
      (∀ (i : Nat) (a b : P), t.Points[i]? = some a → t.Points[i + 1]? = some b →
        (consecutiveDistances Distance t.Points)[i]? = some (Distance a b)) ∧
      (t.Points.length ≤ 1 → trackLength Distance t = some 0) := by
  refine ⟨trackLength_eq_spec Distance t, ?_, ?_, ?_⟩
  · simp only [consecutiveDistances, List.length_zipWith, List.length_tail]
    omega
  · intro i a b ha hb
    exact consecutiveDistances_getElem? Distance t.Points i a b ha hb
  · intro h
    rw [trackLength_eq_spec]
    have : consecutiveDistances Distance t.Points = [] := by
      apply List.eq_nil_of_length_eq_zero
      simp only [consecutiveDistances, List.length_zipWith, List.length_tail]
      omega
    simp [totalDistanceSpec, this]

theorem track_length_is_consecutive_sum_witness :
    trackLength exDistance exTrack = some 3 ∧
      (consecutiveDistances exDistance exTrack.Points)[1]? = some (exDistance 1 3) ∧
      trackLength exDistance { exTrack with Points := [5] } = some 0 :=
  ⟨(track_length_is_consecutive_sum exDistance exTrack).1,
   (track_length_is_consecutive_sum exDistance exTrack).2.2.1 1 1 3 rfl rfl,
   (track_length_is_consecutive_sum exDistance { exTrack with Points := [5] }).2.2.2
     (by decide)⟩

theorem roundHalfEven_exact (m k : Nat) : roundHalfEven (m * 2 ^ k) k = m := by
  unfold roundHalfEven
  have hp : 0 < 2 ^ k := Nat.two_pow_pos k
  have h1 : m * 2 ^ k / 2 ^ k = m := Nat.mul_div_cancel m hp
  have h2 : m * 2 ^ k % 2 ^ k = 0 := Nat.mul_mod_left _ _
  simp only [h1, h2]
  rw [if_neg]
  omega

theorem F64.significand_lt (a : F64) : a.significand < 2 ^ 53 := by
  unfold F64.significand
  have : a.bits % 2 ^ 52 < 2 ^ 52 := Nat.mod_lt _ (Nat.two_pow_pos 52)
  split <;> omega

theorem F64.scale_significand (a : F64) :
    (a.scale - 1) * 2 ^ 52 + a.significand = a.bits := by
  unfold F64.scale F64.significand F64.expField
  have h := Nat.div_add_mod a.bits (2 ^ 52)
  by_cases h0 : a.bits / 2 ^ 52 = 0
  · rw [if_pos h0, h0]
    simp only [Nat.zero_max]
    omega
  · rw [if_neg h0]
    have : max (a.bits / 2 ^ 52) 1 = a.bits / 2 ^ 52 := by omega
    rw [this]
    have e : (a.bits / 2 ^ 52 - 1) * 2 ^ 52 = 2 ^ 52 * (a.bits / 2 ^ 52) - 2 ^ 52 := by
      rw [Nat.sub_mul, Nat.mul_comm]; simp
    have : 2 ^ 52 ≤ 2 ^ 52 * (a.bits / 2 ^ 52) := Nat.le_mul_of_pos_right _ (by omega)
    omega

theorem F64.addOrdered_zero (a : F64) (h : a.bits < F64.infBits) :
    F64.addOrdered a ⟨0⟩ = a := by
  have hs := F64.significand_lt a
  have hb := F64.scale_significand a
  have hz1 : (⟨0⟩ : F64).scale = 1 := by decide
  have hz2 : (⟨0⟩ : F64).significand = 0 := by decide
  unfold F64.addOrdered
  simp only [hz1, hz2, Nat.add_zero]
  have hlt : a.significand * 2 ^ (a.scale - 1) < 2 ^ (53 + (a.scale - 1)) := by
    rw [Nat.pow_add]
    exact Nat.mul_lt_mul_of_pos_right hs (Nat.two_pow_pos _)
  rw [if_pos hlt, roundHalfEven_exact]
  have e : 1 + (a.scale - 1) - 1 = a.scale - 1 := by omega
  rw [e, hb, if_neg (by omega)]

theorem F64.zero_add (a : F64) : (0 : F64) + a = a := by
  show F64.add ⟨0⟩ a = a
  unfold F64.add
  have h0 : ¬ (⟨0⟩ : F64).bits > F64.infBits := by decide
  rw [if_neg h0]
  by_cases h1 : a.bits > F64.infBits
  · rw [if_pos h1]
  · rw [if_neg h1]
    by_cases h2 : a.bits = F64.infBits
    · rw [if_pos (Or.inr h2)]
      cases a; simp_all
    · have h3 : ¬ ((⟨0⟩ : F64).bits = F64.infBits ∨ a.bits = F64.infBits) := by
        intro h; rcases h with h | h
        · exact absurd h (by decide)
        · exact h2 h
      rw [if_neg h3]
      have hlt : a.bits < F64.infBits := by omega
      by_cases h4 : a.scale ≤ (⟨0⟩ : F64).scale
      · rw [if_pos h4]
        have hz1 : (⟨0⟩ : F64).scale = 1 := by decide
        have hz2 : (⟨0⟩ : F64).significand = 0 := by decide
        have hs := F64.significand_lt a
        have hb := F64.scale_significand a
        rw [hz1] at h4
        have ha1 : a.scale = 1 := by
          have : 1 ≤ a.scale := by unfold F64.scale; omega
          omega
        unfold F64.addOrdered
        simp only [hz1, hz2, ha1, Nat.sub_self, Nat.pow_zero, Nat.zero_mul, Nat.zero_add,
          Nat.add_zero]
        rw [if_pos hs]
        have := roundHalfEven_exact a.significand 0
        simp only [Nat.pow_zero, Nat.mul_one] at this
        rw [this]
        rw [ha1] at hb
        simp only [Nat.sub_self, Nat.zero_mul, Nat.zero_add] at hb ⊢
        rw [hb, if_neg (by omega)]
      · rw [if_neg h4]
        exact F64.addOrdered_zero a hlt

theorem F64.addOrdered_comm_of_scale_eq (a b : F64) (h : a.scale = b.scale) :
    F64.addOrdered a b = F64.addOrdered b a := by
  unfold F64.addOrdered
  simp only [h, Nat.sub_self, Nat.pow_zero, Nat.mul_one, Nat.add_comm b.significand]

theorem F64.add_comm_of_not_nan (a b : F64) (ha : a.bits ≤ F64.infBits)
    (hb : b.bits ≤ F64.infBits) : a + b = b + a := by
  show F64.add a b = F64.add b a
  unfold F64.add
  have na : ¬ a.bits > F64.infBits := by omega
  have nb : ¬ b.bits > F64.infBits := by omega
  simp only [if_neg na, if_neg nb]
  by_cases hinf : a.bits = F64.infBits ∨ b.bits = F64.infBits
  · rw [if_pos hinf, if_pos (Or.symm hinf)]
  · have hinf' : ¬ (b.bits = F64.infBits ∨ a.bits = F64.infBits) := fun h => hinf (Or.symm h)
    rw [if_neg hinf, if_neg hinf']
    rcases Nat.lt_trichotomy a.scale b.scale with h | h | h
    · have h1 : ¬ b.scale ≤ a.scale := by omega
      have h2 : a.scale ≤ b.scale := by omega
      rw [if_neg h1, if_pos h2]
    · have h1 : b.scale ≤ a.scale := by omega
      have h2 : a.scale ≤ b.scale := by omega
      rw [if_pos h1, if_pos h2]
      exact F64.addOrdered_comm_of_scale_eq a b h
    · have h1 : b.scale ≤ a.scale := by omega
      have h2 : ¬ a.scale ≤ b.scale := by omega
      rw [if_pos h1, if_neg h2]

theorem totalDistanceSpec_reverse_short {P F : Type} [Zero F] [Add F] (Distance : P → P → F)
    (hsymm : ∀ a b, Distance a b = Distance b a)
    (hzero : ∀ a b, (0 : F) + Distance a b = Distance a b)
    (hcomm : ∀ a b c d, Distance a b + Distance c d = Distance c d + Distance a b)
    (p : List P) (hlen : p.length ≤ 3) :
    totalDistanceSpec Distance p.reverse = totalDistanceSpec Distance p := by
  match p, hlen with
  | [], _ => rfl
  | [_], _ => rfl
  | [x, y], _ =>
    show (0 : F) + Distance y x = 0 + Distance x y
    rw [hsymm y x]
  | [x, y, z], _ =>
    show (0 : F) + Distance z y + Distance y x = 0 + Distance x y + Distance y z
    rw [hsymm z y, hsymm y x, hzero, hzero, hcomm]
  | _ :: _ :: _ :: _ :: _, h => exact absurd h (by simp)

theorem legDistance_symm (a b : Nat) : legDistance a b = legDistance b a := by
  unfold legDistance
  rw [Nat.min_comm a b, Nat.max_comm a b]

theorem legDistance_not_nan (a b : Nat) : (legDistance a b).bits ≤ F64.infBits := by
  unfold legDistance
  simp only
  split_ifs <;> decide

/-- The partial sums of the three legs in both orders: `0.1 + 0.2` is
`0.30000000000000004`, adding `0.3` gives `0.6000000000000001`, whereas
`0.3 + 0.2` is `0.5` and adding `0.1` gives `0.6`. -/
theorem f64_leg_partial_sums :
    (0 : F64) + F64.tenth = F64.tenth ∧
      F64.tenth + F64.fifth = ⟨0x3FD3333333333334⟩ ∧
      (⟨0x3FD3333333333334⟩ : F64) + F64.threeTenths = ⟨0x3FE3333333333334⟩ ∧
      (0 : F64) + F64.threeTenths = F64.threeTenths ∧
      F64.threeTenths + F64.fifth = ⟨0x3FE0000000000000⟩ ∧
      (⟨0x3FE0000000000000⟩ : F64) + F64.tenth = ⟨0x3FE3333333333333⟩ := by
  decide

/-- C9 (as stated, on doubles): with a symmetric distance whose three legs
measure `0.1`, `0.2`, `0.3`, the track sums to `0x3FE3333333333334`
(`0.6000000000000001`) and the reversed track to `0x3FE3333333333333` (`0.6`). -/
theorem reversed_track_length_differs :
    (∀ a b, legDistance a b = legDistance b a) ∧ legTrack.Points ≠ [] ∧
      legTrackReversed.Points = legTrack.Points.reverse ∧
      trackLength legDistance legTrack = some ⟨0x3FE3333333333334⟩ ∧
      trackLength legDistance legTrackReversed = some ⟨0x3FE3333333333333⟩ ∧
      trackLength legDistance legTrackReversed ≠ trackLength legDistance legTrack := by
  refine ⟨?_, by decide, rfl, by decide, by decide, by decide⟩
  intro a b
  unfold legDistance
  rw [Nat.min_comm a b, Nat.max_comm a b]

/-- C9 (amended): for a track of at most three points the reversed track has the
same length as the track, given a symmetric distance on whose values the
accumulating addition satisfies `0 + a = a` and `a + b = b + a`; binary64
addition does so on every distance that is not negative and not a NaN, so the
equality holds for the `float64` accumulation of such distances. -/
theorem reversed_track_length_short :
    (∀ (P T F : Type) [Zero F] [Add F] (Distance : P → P → F),
        (∀ a b, Distance a b = Distance b a) →
        (∀ a b, (0 : F) + Distance a b = Distance a b) →
        (∀ a b c d, Distance a b + Distance c d = Distance c d + Distance a b) →
        ∀ t : IgcTrack P T, t.Points.length ≤ 3 →
          trackLength Distance { t with Points := t.Points.reverse } =
            trackLength Distance t) ∧
      (∀ (P T : Type) (Distance : P → P → F64),
        (∀ a b, Distance a b = Distance b a) →
        (∀ a b, (Distance a b).bits ≤ F64.infBits) →
        ∀ t : IgcTrack P T, t.Points.length ≤ 3 →
          trackLength Distance { t with Points := t.Points.reverse } =
            trackLength Distance t) := by
  have gen : ∀ (P T F : Type) [Zero F] [Add F] (Distance : P → P → F),
      (∀ a b, Distance a b = Distance b a) →
      (∀ a b, (0 : F) + Distance a b = Distance a b) →
      (∀ a b c d, Distance a b + Distance c d = Distance c d + Distance a b) →
      ∀ t : IgcTrack P T, t.Points.length ≤ 3 →
        trackLength Distance { t with Points := t.Points.reverse } =
          trackLength Distance t := by
    intro P T F _ _ Distance hsymm hzero hcomm t hlen
    rw [trackLength_eq_spec, trackLength_eq_spec]
    exact congrArg some (totalDistanceSpec_reverse_short Distance hsymm hzero hcomm _ hlen)
  refine ⟨gen, ?_⟩
  intro P T Distance hsymm hfin t hlen
  exact gen P T F64 Distance hsymm (fun a b => F64.zero_add _)
    (fun a b c d => F64.add_comm_of_not_nan _ _ (hfin a b) (hfin c d)) t hlen

theorem reversed_track_length_short_witness :
    trackLength legDistance
        { ({ legTrack with Points := [0, 1, 2] } : IgcTrack Nat Nat) with
          Points := ([0, 1, 2] : List Nat).reverse } =
      trackLength legDistance ({ legTrack with Points := [0, 1, 2] } : IgcTrack Nat Nat) :=
  reversed_track_length_short.2 Nat Nat legDistance legDistance_symm legDistance_not_nan
    { legTrack with Points := [0, 1, 2] } (by decide)

/-! ## Field query engine -/

theorem fields_lookup {P T F : Type} (DateString : T → String) (FloatToString : F → String)
    (t : IgcTrack P T) (len : F) (k : String) :
    (fields DateString FloatToString t len).lookup k =
      if k = "pilot" then some t.Pilot
      else if k = "glider" then some t.GliderType
      else if k = "glider_id" then some t.GliderID
      else if k = "track_length" then some (FloatToString len)
      else if k = "h_date" then some (DateString t.Date)
      else none := by
  simp only [fields, List.lookup_cons, List.lookup_nil, beq_iff_eq]
  repeat' split
  all_goals first | rfl | simp_all

theorem lowerRune_id_ascii : ∀ n : Fin 128,
    lowerRune id (lowerRune id (Char.ofNat n.val)) = lowerRune id (Char.ofNat n.val) := by
  decide

theorem lowerRune_id_idem (c : Char) : lowerRune id (lowerRune id c) = lowerRune id c := by
  by_cases h : c.val < 128
  · have hn : c.toNat < 128 := h
    have := lowerRune_id_ascii ⟨c.toNat, hn⟩
    simpa [Char.ofNat_toNat] using this
  · simp [lowerRune, h]

theorem ToLower_idem (tbl : Char → Char)
    (hidem : ∀ c, lowerRune tbl (lowerRune tbl c) = lowerRune tbl c) (f : String) :
    ToLower tbl (ToLower tbl f) = ToLower tbl f := by
  simp only [ToLower, String.toList, List.map_map]
  congr 1
  apply List.map_congr_left
  intro c _
  exact hidem c

theorem ofNat_toNat_ascii : ∀ n : Fin 128, (Char.ofNat n.val).toNat = n.val := by decide

theorem lowerRune_eq_iff (tbl : Char → Char) (c d : Char) :
    lowerRune tbl c = d ↔ foldsTo tbl c d := by
  unfold lowerRune foldsTo
  by_cases h : c.toNat < 128
  · have h' : c.val < 128 := h
    rw [if_pos h', if_pos h]
    unfold Char.toLower
    simp only [ge_iff_le]
    by_cases hu : 65 ≤ c.toNat ∧ c.toNat ≤ 90
    · rw [if_pos hu, if_pos hu]
      have e := ofNat_toNat_ascii ⟨c.toNat + 32, by omega⟩
      simp only at e
      constructor
      · intro hd
        rw [← hd, e]
      · intro hd
        rw [← hd, Char.ofNat_toNat]
    · rw [if_neg hu, if_neg hu]
  · have h' : ¬ c.val < 128 := h
    rw [if_neg h', if_neg h]

theorem ToLower_eq_iff (tbl : Char → Char) (f name : String) :
    ToLower tbl f = name ↔ sameIgnoringCase tbl f name := by
  unfold ToLower sameIgnoringCase
  rw [String.ext_iff]
  show f.toList.map (lowerRune tbl) = name.toList ↔ _
  rw [← List.forall₂_eq_eq_eq, List.forall₂_map_left_iff]
  constructor
  · intro h
    exact h.imp (fun c d hcd => (lowerRune_eq_iff tbl c d).1 hcd)
  · intro h
    exact h.imp (fun c d hcd => (lowerRune_eq_iff tbl c d).2 hcd)

/-- C5: with an idempotent rune lower-casing, a field query on a stored track
is answered exactly when the requested name spells one of `pilot`, `glider`,
`glider_id`, `track_length`, `h_date` up to letter case, the answer being that
entry of the track's projection (pilot, glider type, glider id, rendered track
length, rendered date); a name and its lower-cased form get the same answer,
`PILOT`, `Pilot` and `pilot` all give the pilot, mixed-case spellings of the
other four names give their entries, and `unknown_field` is not found. -/
theorem resolve_field_closed_vocabulary {P T F : Type} [Zero F] [Add F] (tbl : Char → Char)
    (hidem : ∀ c, lowerRune tbl (lowerRune tbl c) = lowerRune tbl c)
    (Distance : P → P → F) (DateString : T → String) (FloatToString : F → String)
    (t : IgcTrack P T) :
    ∃ len, trackLength Distance t = some len ∧
      (∀ f : String,
        ((resolveField tbl DateString FloatToString t len f).isSome ↔
          ∃ name ∈ ["pilot", "glider", "glider_id", "track_length", "h_date"],
            sameIgnoringCase tbl f name) ∧
        (sameIgnoringCase tbl f "pilot" →
          resolveField tbl DateString FloatToString t len f = some t.Pilot) ∧
        (sameIgnoringCase tbl f "glider" →
          resolveField tbl DateString FloatToString t len f = some t.GliderType) ∧
        (sameIgnoringCase tbl f "glider_id" →
          resolveField tbl DateString FloatToString t len f = some t.GliderID) ∧
        (sameIgnoringCase tbl f "track_length" →
          resolveField tbl DateString FloatToString t len f = some (FloatToString len)) ∧
        (sameIgnoringCase tbl f "h_date" →
          resolveField tbl DateString FloatToString t len f = some (DateString t.Date)) ∧
        ((resolveField tbl DateString FloatToString t len f).isSome ↔
          ToLower tbl f ∈ ["pilot", "glider", "glider_id", "track_length", "h_date"]) ∧
        resolveField tbl DateString FloatToString t len f =
          (fields DateString FloatToString t len).lookup (ToLower tbl f) ∧
        (ToLower tbl f = "pilot" →
          resolveField tbl DateString FloatToString t len f = some t.Pilot) ∧
        (ToLower tbl f = "glider" →
          resolveField tbl DateString FloatToString t len f = some t.GliderType) ∧
        (ToLower tbl f = "glider_id" →
          resolveField tbl DateString FloatToString t len f = some t.GliderID) ∧
        (ToLower tbl f = "track_length" →
          resolveField tbl DateString FloatToString t len f = some (FloatToString len)) ∧
        (ToLower tbl f = "h_date" →
          resolveField tbl DateString FloatToString t len f = some (DateString t.Date)) ∧
        resolveField tbl DateString FloatToString t len f =
          resolveField tbl DateString FloatToString t len (ToLower tbl f)) ∧
      resolveField tbl DateString FloatToString t len "PILOT" = some t.Pilot ∧
      resolveField tbl DateString FloatToString t len "Pilot" = some t.Pilot ∧
      resolveField tbl DateString FloatToString t len "pilot" = some t.Pilot ∧
      resolveField tbl DateString FloatToString t len "GLIDER" = some t.GliderType ∧
      resolveField tbl DateString FloatToString t len "gLiDeR" = some t.GliderType ∧
      resolveField tbl DateString FloatToString t len "Glider_ID" = some t.GliderID ∧
      resolveField tbl DateString FloatToString t len "Track_Length" =
        some (FloatToString len) ∧
      resolveField tbl DateString FloatToString t len "H_DATE" = some (DateString t.Date) ∧
      resolveField tbl DateString FloatToString t len "h_date" = some (DateString t.Date) ∧
      resolveField tbl DateString FloatToString t len "unknown_field" = none ∧
      resolveField tbl DateString FloatToString t len "UNKNOWN_FIELD" = none ∧
      resolveField tbl DateString FloatToString t len "pilotx" = none := by
  refine ⟨totalDistanceSpec Distance t.Points, trackLength_eq_spec Distance t, ?_,
    rfl, rfl, rfl, rfl, rfl, rfl, rfl, rfl, rfl, rfl, rfl, rfl⟩
  intro f
  have hsome : (resolveField tbl DateString FloatToString t
      (totalDistanceSpec Distance t.Points) f).isSome ↔
      ToLower tbl f ∈ ["pilot", "glider", "glider_id", "track_length", "h_date"] := by
    unfold resolveField
    rw [fields_lookup]
    simp only [List.mem_cons, List.mem_singleton, List.not_mem_nil, or_false]
    repeat' split
    all_goals simp_all
  have hval : ∀ (name v : String), ToLower tbl f = name →
      (fields DateString FloatToString t (totalDistanceSpec Distance t.Points)).lookup name =
        some v →
      resolveField tbl DateString FloatToString t (totalDistanceSpec Distance t.Points) f =
        some v := by
    intro name v h hv
    unfold resolveField
    rw [h, hv]
  refine ⟨?_, ?_, ?_, ?_, ?_, ?_, hsome, rfl, ?_, ?_, ?_, ?_, ?_, ?_⟩
  · rw [hsome]
    constructor
    · intro h
      exact ⟨ToLower tbl f, h, (ToLower_eq_iff tbl f _).1 rfl⟩
    · rintro ⟨name, hmem, hs⟩
      rw [(ToLower_eq_iff tbl f name).2 hs]
      exact hmem
  · intro h; exact hval _ _ ((ToLower_eq_iff tbl f _).2 h) rfl
  · intro h; exact hval _ _ ((ToLower_eq_iff tbl f _).2 h) rfl
  · intro h; exact hval _ _ ((ToLower_eq_iff tbl f _).2 h) rfl
  · intro h; exact hval _ _ ((ToLower_eq_iff tbl f _).2 h) rfl
  · intro h; exact hval _ _ ((ToLower_eq_iff tbl f _).2 h) rfl
  · intro h; exact hval _ _ h rfl
  · intro h; exact hval _ _ h rfl
  · intro h; exact hval _ _ h rfl
  · intro h; exact hval _ _ h rfl
  · intro h; exact hval _ _ h rfl
  · unfold resolveField; rw [ToLower_idem tbl hidem]

theorem resolve_field_closed_vocabulary_witness :
    ∃ len, trackLength exDistance exTrack = some len ∧
      resolveField id exDateString exFloatToString exTrack len "Glider_ID" = some "C" ∧
      resolveField id exDateString exFloatToString exTrack len "GLIDER" = some "B" ∧
      resolveField id exDateString exFloatToString exTrack len "Track_Length" =
        some "3.0000" := by
  obtain ⟨len, hlen, _, h⟩ := resolve_field_closed_vocabulary id lowerRune_id_idem
    exDistance exDateString exFloatToString exTrack
  have h3 : len = 3 := by
    have e : trackLength exDistance exTrack = some 3 := by decide
    rw [e] at hlen
    exact (Option.some.inj hlen).symm
  subst h3
  exact ⟨3, hlen, h.2.2.2.2.2.1, h.2.2.2.1, h.2.2.2.2.2.2.1⟩

/-- C4: evaluation of the two lookup handlers at the identifiers `abc1` and
`12x`: each contains a digit, so the (unanchored) validation accepts it, the
scan of the store runs and the answer is 404, whereas `abc` gets the 400. -/
theorem id_with_a_digit_passes_validation :
    MatchString isIdRune "abc1" = true ∧ MatchString isIdRune "12x" = true ∧
      getApiIgcId exDistance exDateString exStore "GET" "abc1" =
        .httpError 404 "404 - The trackInfo with that id doesn't exists in IGC Files" ∧
      getApiIgcId exDistance exDateString exStore "GET" "12x" =
        .httpError 404 "404 - The trackInfo with that id doesn't exists in IGC Files" ∧
      getApiIgcField id exDistance exDateString exFloatToString exStore
          "GET" "abc1" "pilot" =
        .httpError 404 "404 - The track with that id doesn't exists in IGC Files" ∧
      getApiIgcId exDistance exDateString exStore "GET" "abc" =
        .httpError 400 "400 - Bad Request, you entered an invalid ID in URL." := by
  decide

/-! ## Uptime formatter -/

theorem wrap64_eq_self (x : Int) (h1 : -2 ^ 63 ≤ x) (h2 : x < 2 ^ 63) : wrap64 x = x := by
  unfold wrap64
  omega

theorem wrap64_range (x : Int) : -2 ^ 63 ≤ wrap64 x ∧ wrap64 x < 2 ^ 63 := by
  unfold wrap64
  omega

theorem Day_eq : Day = 86400000000000 := by decide

theorem tdiv_day_range (t : Int) (h1 : -2 ^ 63 ≤ t) (h2 : t < 2 ^ 63) :
    -2 ^ 63 < t.tdiv Day ∧ t.tdiv Day < 2 ^ 63 := by
  rw [Day_eq]
  rcases le_or_lt 0 t with h | h
  · rw [Int.tdiv_eq_ediv h (by decide)]
    omega
  · have e : t.tdiv 86400000000000 = -((-t).tdiv 86400000000000) := by
      rw [Int.neg_tdiv, neg_neg]
    rw [e, Int.tdiv_eq_ediv (by omega) (by decide)]
    omega

/-- C6 (as stated): for 90.05 seconds the tenths field is not `0` and the
rendered string is not `P0Y0D0H1M30.0S`. -/
theorem ninety_point_oh_five_not_zero_tenths :
    (elapsedFields 90050000000).f ≠ 0 ∧ FormatTimeSince 90050000000 ≠ "P0Y0D0H1M30.0S" := by
  decide

/-- C6 (amended): for 90.05 seconds (90,050,000,000 ns) the half decisecond
added before truncation carries into the tenths: the fields are 0 years,
0 days, 0 hours, 1 minute, 30 seconds, 1 tenth, rendered `P0Y0D0H1M30.1S`. -/
theorem ninety_point_oh_five_rounds_up :
    elapsedFields 90050000000 =
        { years := 0, days := 0, hours := 0, minutes := 1, seconds := 30, f := 1 } ∧
      FormatTimeSince 90050000000 = "P0Y0D0H1M30.1S" := by
  decide

/-- C7 (as stated): one day in the past and one day in the future render
differently, the negative duration showing `-1` in the days field. -/
theorem negative_day_shows_sign :
    (-86400000000000 : Int) < 0 ∧ -2 ^ 63 < (-86400000000000 : Int) ∧
      FormatTimeSince (-86400000000000) = "P0Y-1D0H0M0.0S" ∧
      FormatTimeSince (-(-86400000000000)) = "P0Y1D0H0M0.0S" ∧
      FormatTimeSince (-86400000000000) ≠ FormatTimeSince (-(-86400000000000)) := by
  decide

/-- C7 (amended): for a negative duration `d` above the 64-bit minimum, the
hours, minutes, seconds and tenths fields are those of `-d`, the days and years
fields are the negated days and years fields of `-d`, and the two rendered
strings are the same whenever the days field of `-d` is `0`. -/
theorem negative_elapsed_mirrors_positive (d : Int) (hneg : d < 0) (hmin : -2 ^ 63 < d) :
    (elapsedFields d).hours = (elapsedFields (-d)).hours ∧
      (elapsedFields d).minutes = (elapsedFields (-d)).minutes ∧
      (elapsedFields d).seconds = (elapsedFields (-d)).seconds ∧
      (elapsedFields d).f = (elapsedFields (-d)).f ∧
      (elapsedFields d).days = -(elapsedFields (-d)).days ∧
      (elapsedFields d).years = -(elapsedFields (-d)).years ∧
      ((elapsedFields (-d)).days = 0 → FormatTimeSince d = FormatTimeSince (-d)) := by
  have hpos : ¬ (-d < 0) := by omega
  have hw : wrap64 (-d) = -d := wrap64_eq_self (-d) (by omega) (by omega)
  obtain ⟨r1, r2⟩ := wrap64_range (-d + Decisecond / 2)
  obtain ⟨q1, q2⟩ := tdiv_day_range _ r1 r2
  have hd : (elapsedFields d).days = -(elapsedFields (-d)).days := by
    simp only [elapsedFields, if_pos hneg, if_neg hpos, hw]
    generalize wrap64 (-d + Decisecond / 2) = t at q1 q2 ⊢
    rw [wrap64_eq_self (-1 * t.tdiv Day) (by omega) (by omega),
      wrap64_eq_self (1 * t.tdiv Day) (by omega) (by omega)]
    omega
  have hy : (elapsedFields d).years = -(elapsedFields (-d)).years := by
    have e1 : (elapsedFields d).years = (elapsedFields d).days.tdiv 365 := rfl
    have e2 : (elapsedFields (-d)).years = (elapsedFields (-d)).days.tdiv 365 := rfl
    rw [e1, e2, hd, Int.neg_tdiv]
  have hh : (elapsedFields d).hours = (elapsedFields (-d)).hours := by
    simp only [elapsedFields, if_pos hneg, if_neg hpos, hw]
  have hm : (elapsedFields d).minutes = (elapsedFields (-d)).minutes := by
    simp only [elapsedFields, if_pos hneg, if_neg hpos, hw]
  have hs : (elapsedFields d).seconds = (elapsedFields (-d)).seconds := by
    simp only [elapsedFields, if_pos hneg, if_neg hpos, hw]
  have hf : (elapsedFields d).f = (elapsedFields (-d)).f := by
    simp only [elapsedFields, if_pos hneg, if_neg hpos, hw]
  refine ⟨hh, hm, hs, hf, hd, hy, ?_⟩
  intro h0
  have hd0 : (elapsedFields d).days = (elapsedFields (-d)).days := by rw [hd, h0]; rfl
  have hy0 : (elapsedFields d).years = (elapsedFields (-d)).years := by
    have e1 : (elapsedFields d).years = (elapsedFields d).days.tdiv 365 := rfl
    have e2 : (elapsedFields (-d)).years = (elapsedFields (-d)).days.tdiv 365 := rfl
    rw [e1, e2, hd0]
  unfold FormatTimeSince renderElapsed
  rw [hh, hm, hs, hf, hd0, hy0]

theorem negative_elapsed_mirrors_positive_witness :
    (elapsedFields (-400 * 86400000000000 - 3723450000000)).days =
        -(elapsedFields (-(-400 * 86400000000000 - 3723450000000))).days ∧
      (elapsedFields (-400 * 86400000000000 - 3723450000000)).hours =
        (elapsedFields (-(-400 * 86400000000000 - 3723450000000))).hours :=
  ⟨(negative_elapsed_mirrors_positive (-400 * 86400000000000 - 3723450000000)
      (by decide) (by decide)).2.2.2.2.1,
   (negative_elapsed_mirrors_positive (-400 * 86400000000000 - 3723450000000)
      (by decide) (by decide)).1⟩

end IgcApi
